import Mathlib

/-!
Verification of the MaterialX geometric-element core (Geom.h).

The given source file `source/MaterialXCore/Geom.h` declares the geometric
element subclasses and implements `GeomInfo::setGeomAttrValue` together with
the `GeomElement` attribute accessors inline.  The generic containment
machinery of the base `Element` class (`addChild`, `getChildOfType`,
`getChildrenOfType`, `removeChildOfType`, `setAttribute`, `getAttribute`),
the `ValueElement::setValue` store and the body of `geomStringsMatch` live
outside the given source; they are modelled here from the specification
(sections 3, 4.1, 4.2 and 4.3), following its design note that child kinds
are represented by a tagged-variant enumeration over a single ordered child
sequence.
-/

namespace MaterialX

/-- Modelled from the spec: runtime variant tag of a document element.  The
source filters children by their C++ dynamic type; design note 9 prescribes
reimplementing this as a tagged-variant enumeration over child kinds. -/
inductive Variant : Type where
  | geomInfo
  | geomAttr
  | collection
  | collectionAdd
  | collectionRemove
  deriving DecidableEq

/-- Modelled from the spec: the category-name constant of each element
variant, as passed by each subclass constructor in Geom.h to the base
`Element` constructor (the `CATEGORY` constants themselves are defined
outside the given source). -/
def categoryOf : Variant → String
  | Variant.geomInfo => "geominfo"
  | Variant.geomAttr => "geomattr"
  | Variant.collection => "collection"
  | Variant.collectionAdd => "collectionadd"
  | Variant.collectionRemove => "collectionremove"

/-- Modelled from the spec: an element of the document tree (the base
`Element` class is outside the given source).  Per spec section 3 an element
carries a category tag, a name, an ordered mapping of string attributes, and
the ordered sequence of children it owns; value-bearing elements additionally
carry a typed value slot `(typeTag, serializedValue)` whose two components
are always set together (spec section 4.2), modelled as one `Option` field. -/
inductive Element : Type where
  | mk (variant : Variant) (category : String) (name : String)
      (attributes : List (String × String)) (value : Option (String × String))
      (children : List Element) : Element

/-- Variant tag of an element. -/
def Element.variant : Element → Variant
  | Element.mk t _ _ _ _ _ => t

/-- Category string of an element. -/
def Element.category : Element → String
  | Element.mk _ c _ _ _ _ => c

/-- Name of an element. -/
def Element.name : Element → String
  | Element.mk _ _ n _ _ _ => n

/-- Attribute list of an element. -/
def Element.attributes : Element → List (String × String)
  | Element.mk _ _ _ a _ _ => a

/-- Typed value slot of an element. -/
def Element.value : Element → Option (String × String)
  | Element.mk _ _ _ _ v _ => v

/-- Children of an element, in insertion order. -/
def Element.children : Element → List Element
  | Element.mk _ _ _ _ _ c => c

/-- Replace the child list of an element, keeping all other fields. -/
def Element.withChildren : Element → List Element → Element
  | Element.mk t c n a v _, cs => Element.mk t c n a v cs

/-- Replace the attribute list of an element, keeping all other fields. -/
def Element.withAttributes : Element → List (String × String) → Element
  | Element.mk t c n _ v cs, a => Element.mk t c n a v cs

/-- Replace the value slot of an element, keeping all other fields. -/
def Element.withValue : Element → Option (String × String) → Element
  | Element.mk t c n a _ cs, v => Element.mk t c n a v cs

/-! ### Geometry-string matching (Geom.h line 285, body modelled from spec 4.3) -/

/-- The universal geometry name; spec section 3 fixes the single-character
token `*` as the universal wildcard. -/
def UNIVERSAL_GEOM_NAME : String := "*"

/-- Split a character list on commas into the nonempty segments, accumulating
the current (reversed) segment.  Per spec section 4.3 a geometry expression is
a comma-separated token list and an empty string denotes no geometries, so
empty segments contribute no tokens. -/
def splitGeomStringAux : List Char → List Char → List String
  | [], cur => if cur = [] then [] else [String.mk cur.reverse]
  | c :: rest, cur =>
    if c = ',' then
      if cur = [] then splitGeomStringAux rest []
      else String.mk cur.reverse :: splitGeomStringAux rest []
    else splitGeomStringAux rest (c :: cur)

/-- Modelled from the spec: the list of geometry-name tokens of a geom
string, obtained by splitting on commas; the empty string yields no tokens. -/
def splitGeomString (s : String) : List String :=
  splitGeomStringAux s.data []

/-- Modelled from the spec: `geomStringsMatch` (declared at Geom.h line 285,
implemented outside the given source).  If either whole string equals the
universal geom name the match succeeds immediately; otherwise the two
comma-separated token lists must share at least one token, compared by exact
string equality. -/
def geomStringsMatch (geom1 geom2 : String) : Bool :=
  if geom1 = UNIVERSAL_GEOM_NAME ∨ geom2 = UNIVERSAL_GEOM_NAME then true
  else (splitGeomString geom1).any fun t => (splitGeomString geom2).contains t

/-! ### Generic typed containment (spec section 4.1, `Element` base class is
outside the given source) -/

/-- Names of the direct children of an element, in order. -/
def childNames (e : Element) : List String :=
  e.children.map Element.name

/-- Error taxonomy of the containment operations; spec section 7 names the
`DuplicateName` condition for a typed add with an already-used name. -/
inductive TreeError : Type where
  | duplicateName
  deriving DecidableEq

/-- Length of the longest string in a list, zero for the empty list. -/
def maxNameLength : List String → Nat
  | [] => 0
  | s :: rest => max s.length (maxNameLength rest)

/-- Fallback synthesized name: the category followed by a digit run longer
than every name currently in use, hence certainly unused. -/
def fallbackName (cat : String) (used : List String) : String :=
  cat ++ String.mk (List.replicate (maxNameLength used + 1) '1')

/-- Modelled from the spec: synthesize a child name guaranteed unused among
the parent's current children (spec section 4.1), probing the candidates
`category0, category1, ...` and falling back, should every probe in the
range be taken, to a candidate longer than every used name. -/
def freshChildName (t : Variant) (e : Element) : String :=
  let used := childNames e
  let cat := categoryOf t
  match (List.range (used.length + 1)).find?
      (fun k => !(used.contains (cat ++ Nat.repr k))) with
  | some k => cat ++ Nat.repr k
  | none => fallbackName cat used

/-- A freshly constructed element of the given variant and name, with its
category set from the variant and no attributes, value or children. -/
def newElement (t : Variant) (n : String) : Element :=
  Element.mk t (categoryOf t) n [] none []

/-- Modelled from the spec: `Element::addChild` specialized by a variant tag
(spec section 4.1).  An empty name is replaced by a synthesized unused name;
a non-empty name already used by any existing child, regardless of that
child's variant, fails with `DuplicateName`; otherwise the new child is
appended to the child sequence.  Returns the updated parent and the new
child. -/
def addChild (t : Variant) (n : String) (e : Element) :
    Except TreeError (Element × Element) :=
  if n = "" then
    Except.ok (e.withChildren (e.children ++ [newElement t (freshChildName t e)]),
      newElement t (freshChildName t e))
  else if e.children.any (fun c => c.name == n) then
    Except.error TreeError.duplicateName
  else
    Except.ok (e.withChildren (e.children ++ [newElement t n]), newElement t n)

/-- Modelled from the spec: `Element::getChild`, the by-name lookup among the
direct children. -/
def getChild (n : String) (e : Element) : Option Element :=
  e.children.find? (fun c => c.name == n)

/-- Modelled from the spec: `Element::getChildOfType` (spec section 4.1),
returning the child with the given name only when it exists and its variant
matches; nothing otherwise. -/
def getChildOfType (t : Variant) (n : String) (e : Element) : Option Element :=
  match getChild n e with
  | some c => if c.variant = t then some c else none
  | none => none

/-- Scan of a child sequence keeping the elements of the given variant, in
order; spec design note 9 prescribes this single scan over the one ordered
child list. -/
def childrenOfTypeAux (t : Variant) : List Element → List Element
  | [] => []
  | c :: rest =>
    if c.variant = t then c :: childrenOfTypeAux t rest
    else childrenOfTypeAux t rest

/-- Modelled from the spec: `Element::getChildrenOfType` (spec section 4.1),
the children of the given variant in insertion order. -/
def getChildrenOfType (t : Variant) (e : Element) : List Element :=
  childrenOfTypeAux t e.children

/-- Modelled from the spec: `Element::removeChild`, erasing the child with
the given name from the child sequence. -/
def removeChild (n : String) (e : Element) : Element :=
  e.withChildren (e.children.filter (fun c => c.name != n))

/-- Modelled from the spec: `Element::removeChildOfType` (spec section 4.1),
removing the named child only when it exists and matches the variant, a
no-op otherwise. -/
def removeChildOfType (t : Variant) (n : String) (e : Element) : Element :=
  match getChildOfType t n e with
  | some _ => removeChild n e
  | none => e

/-! ### Typed wrappers of Geom.h

Each wrapper below is the direct translation of the corresponding one-line
member of `GeomInfo` or `Collection` in Geom.h, which forwards to the generic
containment operation specialized to the member's variant. -/

/-- GeomInfo::addGeomAttr (Geom.h lines 106-109). -/
def addGeomAttr (n : String) (e : Element) : Except TreeError (Element × Element) :=
  addChild Variant.geomAttr n e

/-- GeomInfo::getGeomAttr (Geom.h lines 112-115). -/
def getGeomAttr (n : String) (e : Element) : Option Element :=
  getChildOfType Variant.geomAttr n e

/-- GeomInfo::getGeomAttrs (Geom.h lines 118-121). -/
def getGeomAttrs (e : Element) : List Element :=
  getChildrenOfType Variant.geomAttr e

/-- GeomInfo::removeGeomAttr (Geom.h lines 124-127). -/
def removeGeomAttr (n : String) (e : Element) : Element :=
  removeChildOfType Variant.geomAttr n e

/-- Collection::addCollectionAdd (Geom.h lines 177-180). -/
def addCollectionAdd (n : String) (e : Element) : Except TreeError (Element × Element) :=
  addChild Variant.collectionAdd n e

/-- Collection::getCollectionAdd (Geom.h lines 183-186). -/
def getCollectionAdd (n : String) (e : Element) : Option Element :=
  getChildOfType Variant.collectionAdd n e

/-- Collection::getCollectionAdds (Geom.h lines 189-192). -/
def getCollectionAdds (e : Element) : List Element :=
  getChildrenOfType Variant.collectionAdd e

/-- Collection::removeCollectionAdd (Geom.h lines 195-198). -/
def removeCollectionAdd (n : String) (e : Element) : Element :=
  removeChildOfType Variant.collectionAdd n e

/-- Collection::addCollectionRemove (Geom.h lines 209-212). -/
def addCollectionRemove (n : String) (e : Element) : Except TreeError (Element × Element) :=
  addChild Variant.collectionRemove n e

/-- Collection::getCollectionRemoves (Geom.h lines 221-224). -/
def getCollectionRemoves (e : Element) : List Element :=
  getChildrenOfType Variant.collectionRemove e

/-- Collection::removeCollectionRemove (Geom.h lines 227-230). -/
def removeCollectionRemove (n : String) (e : Element) : Element :=
  removeChildOfType Variant.collectionRemove n e

/-! ### Values (spec section 4.2, `ValueElement` is outside the given source) -/

/-- Modelled from the spec: the supported typed values, a sum over value
kinds (spec design note 9) each with a serialization and a type tag. -/
inductive MxValue : Type where
  | vInt (i : Int)
  | vBool (b : Bool)
  | vString (s : String)
  deriving DecidableEq

/-- Type tag inferred from a value's own kind. -/
def MxValue.typeString : MxValue → String
  | MxValue.vInt _ => "integer"
  | MxValue.vBool _ => "boolean"
  | MxValue.vString _ => "string"

/-- Serialized string form of a value. -/
def MxValue.valueString : MxValue → String
  | MxValue.vInt i => toString i
  | MxValue.vBool b => if b then "true" else "false"
  | MxValue.vString s => s

/-- Modelled from the spec: `ValueElement::setValue` (spec section 4.2).
Stores the serialized value together with a type tag, the supplied hint
overriding the inferred tag when non-empty; both components of the slot are
overwritten together. -/
def setValue (v : MxValue) (tp : String) (c : Element) : Element :=
  c.withValue (some ((if tp = "" then v.typeString else tp), v.valueString))

/-- Apply an update to every direct child carrying the given name (at most
one in a well-formed tree); the state-passing rendering of mutating a looked
up child in place. -/
def updateChildNamed (n : String) (f : Element → Element) (e : Element) : Element :=
  e.withChildren (e.children.map (fun c => if c.name == n then f c else c))

/-- GeomInfo::setGeomAttrValue (Geom.h lines 268-277): look up the GeomAttr
child of the given name; if absent, add one via `addGeomAttr`; then set the
value on that child. -/
def setGeomAttrValue (n : String) (v : MxValue) (tp : String) (e : Element) :
    Except TreeError Element :=
  match getChildOfType Variant.geomAttr n e with
  | some _ => Except.ok (updateChildNamed n (setValue v tp) e)
  | none =>
    (addGeomAttr n e).map fun pc => updateChildNamed pc.2.name (setValue v tp) pc.1

/-! ### Attributes and the GeomElement accessors (Geom.h lines 53-84) -/

/-- Modelled from the spec: `Element::setAttribute` over the ordered
attribute mapping (spec section 3): overwrite the value in place when the
key is present, append the pair otherwise. -/
def setAttribute (k v : String) (e : Element) : Element :=
  if e.attributes.any (fun p => p.1 == k) then
    e.withAttributes (e.attributes.map (fun p => if p.1 == k then (p.1, v) else p))
  else
    e.withAttributes (e.attributes ++ [(k, v)])

/-- Modelled from the spec: `Element::getAttribute`, the stored value of the
key, the empty string when absent. -/
def getAttribute (k : String) (e : Element) : String :=
  match e.attributes.find? (fun p => p.1 == k) with
  | some p => p.2
  | none => ""

/-- GeomElement::GEOM_ATTRIBUTE (declared at Geom.h line 83; spec section 6
fixes the attribute-name constant `geom`). -/
def GEOM_ATTRIBUTE : String := "geom"

/-- GeomElement::COLLECTION_ATTRIBUTE (declared at Geom.h line 84; spec
section 6 fixes the attribute-name constant `collection`). -/
def COLLECTION_ATTRIBUTE : String := "collection"

/-- GeomElement::setGeom (Geom.h lines 53-56). -/
def setGeom (v : String) (e : Element) : Element :=
  setAttribute GEOM_ATTRIBUTE v e

/-- GeomElement::getGeom (Geom.h lines 59-62). -/
def getGeom (e : Element) : String :=
  getAttribute GEOM_ATTRIBUTE e

/-- GeomElement::setCollection (Geom.h lines 69-72). -/
def setCollection (v : String) (e : Element) : Element :=
  setAttribute COLLECTION_ATTRIBUTE v e

/-- GeomElement::getCollection (Geom.h lines 75-78). -/
def getCollection (e : Element) : String :=
  getAttribute COLLECTION_ATTRIBUTE e

/-- The number of direct children of the given variant carrying the given
name. -/
def countChildrenOfTypeNamed (t : Variant) (n : String) (e : Element) : Nat :=
  e.children.countP (fun c => c.variant == t && c.name == n)

/-! ### Concrete states used by the witnesses and counterexamples -/

/-- A GeomInfo element with no children. -/
def giEmpty : Element :=
  Element.mk Variant.geomInfo "geominfo" "gi1" [] none []

/-- The state of `giEmpty` after `setGeomAttrValue "ga1" (vString "x") ""`. -/
def gaState1 : Element :=
  Element.mk Variant.geomInfo "geominfo" "gi1" [] none
    [Element.mk Variant.geomAttr "geomattr" "ga1" [] (some ("string", "x")) []]

/-- A Collection holding a single CollectionAdd child named `r1`. -/
def collState : Element :=
  Element.mk Variant.collection "collection" "coll1" [] none
    [Element.mk Variant.collectionAdd "collectionadd" "r1" [] none []]

/-- A Collection holding a single CollectionRemove child named `foo`. -/
def collDup : Element :=
  Element.mk Variant.collection "collection" "coll2" [] none
    [Element.mk Variant.collectionRemove "collectionremove" "foo" [] none []]

/-- A GeomInfo holding a single GeomAttr child named `geomattr0`. -/
def giAuto : Element :=
  Element.mk Variant.geomInfo "geominfo" "gi2" [] none
    [Element.mk Variant.geomAttr "geomattr" "geomattr0" [] none []]

/-- The state of `giAuto` after an auto-named `addChild` of a GeomAttr. -/
def giAutoAfter : Element :=
  Element.mk Variant.geomInfo "geominfo" "gi2" [] none
    [Element.mk Variant.geomAttr "geomattr" "geomattr0" [] none [],
      Element.mk Variant.geomAttr "geomattr" "geomattr1" [] none []]

/-- The child synthesized by the auto-named `addChild` on `giAuto`. -/
def giAutoNew : Element :=
  Element.mk Variant.geomAttr "geomattr" "geomattr1" [] none []

/-- A GeomInfo whose single child named `x1` is a CollectionAdd, not a
GeomAttr. -/
def conflictState : Element :=
  Element.mk Variant.geomInfo "geominfo" "gi3" [] none
    [Element.mk Variant.collectionAdd "collectionadd" "x1" [] none []]

/-! ### Accessor equations -/

@[simp] theorem Element.variant_mk (t c n a v cs) :
    (Element.mk t c n a v cs).variant = t := rfl

@[simp] theorem Element.category_mk (t c n a v cs) :
    (Element.mk t c n a v cs).category = c := rfl

@[simp] theorem Element.name_mk (t c n a v cs) :
    (Element.mk t c n a v cs).name = n := rfl

@[simp] theorem Element.attributes_mk (t c n a v cs) :
    (Element.mk t c n a v cs).attributes = a := rfl

@[simp] theorem Element.value_mk (t c n a v cs) :
    (Element.mk t c n a v cs).value = v := rfl

@[simp] theorem Element.children_mk (t c n a v cs) :
    (Element.mk t c n a v cs).children = cs := rfl

@[simp] theorem Element.variant_withChildren (e : Element) (cs) :
    (e.withChildren cs).variant = e.variant := by cases e; rfl

@[simp] theorem Element.category_withChildren (e : Element) (cs) :
    (e.withChildren cs).category = e.category := by cases e; rfl

@[simp] theorem Element.name_withChildren (e : Element) (cs) :
    (e.withChildren cs).name = e.name := by cases e; rfl

@[simp] theorem Element.attributes_withChildren (e : Element) (cs) :
    (e.withChildren cs).attributes = e.attributes := by cases e; rfl

@[simp] theorem Element.value_withChildren (e : Element) (cs) :
    (e.withChildren cs).value = e.value := by cases e; rfl

@[simp] theorem Element.children_withChildren (e : Element) (cs) :
    (e.withChildren cs).children = cs := by cases e; rfl

@[simp] theorem Element.variant_withAttributes (e : Element) (a) :
    (e.withAttributes a).variant = e.variant := by cases e; rfl

@[simp] theorem Element.category_withAttributes (e : Element) (a) :
    (e.withAttributes a).category = e.category := by cases e; rfl

@[simp] theorem Element.name_withAttributes (e : Element) (a) :
    (e.withAttributes a).name = e.name := by cases e; rfl

@[simp] theorem Element.attributes_withAttributes (e : Element) (a) :
    (e.withAttributes a).attributes = a := by cases e; rfl

@[simp] theorem Element.value_withAttributes (e : Element) (a) :
    (e.withAttributes a).value = e.value := by cases e; rfl

@[simp] theorem Element.children_withAttributes (e : Element) (a) :
    (e.withAttributes a).children = e.children := by cases e; rfl

@[simp] theorem Element.variant_withValue (e : Element) (v) :
    (e.withValue v).variant = e.variant := by cases e; rfl

@[simp] theorem Element.name_withValue (e : Element) (v) :
    (e.withValue v).name = e.name := by cases e; rfl

@[simp] theorem Element.category_withValue (e : Element) (v) :
    (e.withValue v).category = e.category := by cases e; rfl

@[simp] theorem Element.children_withValue (e : Element) (v) :
    (e.withValue v).children = e.children := by cases e; rfl

/-! ### Helper lemmas -/

theorem setValue_name (v : MxValue) (tp : String) (c : Element) :
    (setValue v tp c).name = c.name := by
  cases c; rfl

theorem setValue_variant (v : MxValue) (tp : String) (c : Element) :
    (setValue v tp c).variant = c.variant := by
  cases c; rfl

theorem length_le_maxNameLength (s : String) (l : List String) (h : s ∈ l) :
    s.length ≤ maxNameLength l := by
  induction l with
  | nil => cases h
  | cons a l ih =>
    rcases List.mem_cons.mp h with rfl | h2
    · exact le_max_left _ _
    · exact le_trans (ih h2) (le_max_right _ _)

theorem fallbackName_not_mem (cat : String) (used : List String) :
    fallbackName cat used ∉ used := by
  intro hmem
  have hlen := length_le_maxNameLength _ _ hmem
  have : (fallbackName cat used).length = cat.length + (maxNameLength used + 1) := by
    simp [fallbackName, String.length_mk]
  omega

theorem freshChildName_not_mem (t : Variant) (e : Element) :
    freshChildName t e ∉ childNames e := by
  unfold freshChildName
  cases hf : (List.range ((childNames e).length + 1)).find?
      (fun k => !((childNames e).contains (categoryOf t ++ Nat.repr k))) with
  | none =>
    simp only [hf]
    exact fallbackName_not_mem _ _
  | some k =>
    simp only [hf]
    have hk := List.find?_some hf
    rw [Bool.not_eq_true'] at hk
    intro hmem
    have hc : (childNames e).contains (categoryOf t ++ Nat.repr k) = true := by
      simpa [List.contains_eq_any_beq, List.any_eq_true] using hmem
    rw [hk] at hc
    cases hc

theorem find?_name_decomp (l : List Element) (n : String) (c : Element)
    (h : l.find? (fun x => x.name == n) = some c) :
    c.name = n ∧ ∃ l1 l2, l = l1 ++ c :: l2 ∧ ∀ x ∈ l1, x.name ≠ n := by
  induction l with
  | nil => cases h
  | cons a l ih =>
    by_cases ha : a.name = n
    · rw [List.find?_cons_of_pos _ (by simp [ha])] at h
      cases h
      exact ⟨ha, [], l, rfl, by simp⟩
    · rw [List.find?_cons_of_neg _ (by simp [ha])] at h
      obtain ⟨hc, l1, l2, rfl, hl1⟩ := ih h
      exact ⟨hc, a :: l1, l2, rfl, by
        intro x hx
        rcases List.mem_cons.mp hx with rfl | hx2
        · exact ha
        · exact hl1 x hx2⟩

theorem find?_name_of_decomp (l1 : List Element) (c : Element) (l2 : List Element)
    (n : String) (h1 : ∀ x ∈ l1, x.name ≠ n) (hc : c.name = n) :
    (l1 ++ c :: l2).find? (fun x => x.name == n) = some c := by
  induction l1 with
  | nil => simp [List.find?_cons_of_pos, hc]
  | cons a l1 ih =>
    rw [List.cons_append,
      List.find?_cons_of_neg _ (by simp [h1 a (List.mem_cons_self a l1)])]
    exact ih fun x hx => h1 x (List.mem_cons_of_mem a hx)

theorem nodup_decomp_names (l1 : List Element) (c : Element) (l2 : List Element)
    (hnd : ((l1 ++ c :: l2).map Element.name).Nodup) :
    (∀ x ∈ l1, x.name ≠ c.name) ∧ ∀ x ∈ l2, x.name ≠ c.name := by
  rw [List.map_append, List.map_cons, List.nodup_append] at hnd
  obtain ⟨h1, h2, hdisj⟩ := hnd
  constructor
  · intro x hx heq
    exact hdisj (List.mem_map_of_mem Element.name hx)
      (by rw [heq]; exact List.mem_cons_self _ _)
  · intro x hx heq
    exact (List.nodup_cons.mp h2).1 (heq ▸ List.mem_map_of_mem Element.name hx)

theorem filter_name_ne_of_all (l : List Element) (n : String)
    (h : ∀ x ∈ l, x.name ≠ n) :
    l.filter (fun c => c.name != n) = l := by
  rw [List.filter_eq_self]
  intro a ha
  simp [bne_iff_ne, h a ha]

theorem countP_typeNamed_decomp (t : Variant) (n : String)
    (l1 : List Element) (c : Element) (l2 : List Element)
    (h1 : ∀ x ∈ l1, x.name ≠ n) (h2 : ∀ x ∈ l2, x.name ≠ n) (hc : c.name = n) :
    (l1 ++ c :: l2).countP (fun x => x.variant == t && x.name == n)
      = if c.variant = t then 1 else 0 := by
  rw [List.countP_append, List.countP_cons]
  have z1 : l1.countP (fun x => x.variant == t && x.name == n) = 0 := by
    rw [List.countP_eq_zero]
    intro a ha
    simp [h1 a ha]
  have z2 : l2.countP (fun x => x.variant == t && x.name == n) = 0 := by
    rw [List.countP_eq_zero]
    intro a ha
    simp [h2 a ha]
  by_cases hv : c.variant = t
  · simp [z1, z2, hv, hc]
  · simp [z1, z2, hv, hc]

theorem countP_map_update (l : List Element) (n : String) (v : MxValue)
    (tp : String) (p : Element → Bool)
    (hp : ∀ c, p (setValue v tp c) = p c) :
    (l.map fun c => if c.name == n then setValue v tp c else c).countP p
      = l.countP p := by
  induction l with
  | nil => rfl
  | cons a l ih =>
    rw [List.map_cons]
    by_cases ha : a.name = n
    · rw [if_pos (by simp [ha]), List.countP_cons, List.countP_cons, ih, hp]
    · rw [if_neg (by simp [ha]), List.countP_cons, List.countP_cons, ih]

theorem map_name_update (l : List Element) (n : String) (v : MxValue)
    (tp : String) :
    (l.map fun c => if c.name == n then setValue v tp c else c).map Element.name
      = l.map Element.name := by
  rw [List.map_map]
  apply List.map_congr_left
  intro a _
  by_cases ha : a.name = n
  · simp [ha, setValue_name]
  · simp [ha]

theorem find?_name_map_update (l : List Element) (n : String) (v : MxValue)
    (tp : String) :
    (l.map fun c => if c.name == n then setValue v tp c else c).find?
        (fun c => c.name == n)
      = (l.find? fun c => c.name == n).map fun c => setValue v tp c := by
  induction l with
  | nil => rfl
  | cons a l ih =>
    by_cases ha : a.name = n
    · rw [List.map_cons, if_pos (by simp [ha]),
        List.find?_cons_of_pos _ (by simp [setValue_name, ha]),
        List.find?_cons_of_pos _ (by simp [ha])]
      rfl
    · rw [List.map_cons, if_neg (by simp [ha]),
        List.find?_cons_of_neg _ (by simp [setValue_name, ha]),
        List.find?_cons_of_neg _ (by simp [ha])]
      exact ih

theorem childrenOfTypeAux_eq_filter (t : Variant) (l : List Element) :
    childrenOfTypeAux t l = l.filter (fun c => c.variant == t) := by
  induction l with
  | nil => rfl
  | cons a l ih =>
    by_cases ha : a.variant = t
    · simp [childrenOfTypeAux, ha, List.filter_cons, ih]
    · simp [childrenOfTypeAux, ha, List.filter_cons, ih]

theorem map_update_of_not_mem (l : List Element) (n : String) (v : MxValue)
    (tp : String) (h : ∀ x ∈ l, x.name ≠ n) :
    (l.map fun c => if c.name == n then setValue v tp c else c) = l := by
  have h2 : (l.map fun c => if c.name == n then setValue v tp c else c)
      = l.map id := by
    apply List.map_congr_left
    intro a ha
    simp [h a ha]
  rw [h2, List.map_id]

theorem getChildOfType_eq_some (t : Variant) (n : String) (e : Element)
    (c : Element) (h : getChildOfType t n e = some c) :
    getChild n e = some c ∧ c.variant = t := by
  unfold getChildOfType at h
  cases hg : getChild n e with
  | none =>
    rw [hg] at h
    change (none : Option Element) = some c at h
    cases h
  | some c0 =>
    rw [hg] at h
    change (if c0.variant = t then some c0 else none) = some c at h
    by_cases hv : c0.variant = t
    · rw [if_pos hv] at h; cases h; exact ⟨rfl, hv⟩
    · rw [if_neg hv] at h; cases h

theorem updateChildNamed_decomp (e0 : Element) (n : String) (v : MxValue)
    (tp : String) (m1 : List Element) (cA : Element) (m2 : List Element)
    (hdec : e0.children = m1 ++ cA :: m2) (hcn : cA.name = n)
    (hm1 : ∀ x ∈ m1, x.name ≠ n) (hm2 : ∀ x ∈ m2, x.name ≠ n) :
    (updateChildNamed n (setValue v tp) e0).children
      = m1 ++ setValue v tp cA :: m2 := by
  simp only [updateChildNamed, Element.children_withChildren, hdec,
    List.map_append, List.map_cons]
  rw [map_update_of_not_mem _ _ _ _ hm1, map_update_of_not_mem _ _ _ _ hm2,
    if_pos (by simp [hcn])]

theorem nodup_append_singleton (l : List String) (x : String)
    (hl : l.Nodup) (hx : x ∉ l) : (l ++ [x]).Nodup := by
  rw [List.nodup_append]
  refine ⟨hl, List.nodup_singleton x, ?_⟩
  intro a ha hax
  rw [List.mem_singleton] at hax
  exact hx (hax ▸ ha)

theorem nodup_childNames_remove (e : Element)
    (hnd : (childNames e).Nodup) (t : Variant) (n : String) :
    (childNames (removeChildOfType t n e)).Nodup := by
  unfold removeChildOfType
  cases h : getChildOfType t n e with
  | none => exact hnd
  | some c =>
    unfold removeChild childNames
    simp only [Element.children_withChildren]
    exact ((List.filter_sublist e.children).map Element.name).nodup hnd

theorem find?_key_map_set (l : List (String × String)) (k v : String) :
    (l.map fun p => if p.1 == k then (p.1, v) else p).find? (fun p => p.1 == k)
      = (l.find? fun p => p.1 == k).map fun p => (p.1, v) := by
  induction l with
  | nil => rfl
  | cons a l ih =>
    by_cases ha : a.1 = k
    · rw [List.map_cons, if_pos (by simp [ha]),
        List.find?_cons_of_pos _ (by simp [ha]),
        List.find?_cons_of_pos _ (by simp [ha])]
      rfl
    · rw [List.map_cons, if_neg (by simp [ha]),
        List.find?_cons_of_neg _ (by simp [ha]),
        List.find?_cons_of_neg _ (by simp [ha])]
      exact ih

theorem find?_key_map_other (l : List (String × String)) (k v k2 : String)
    (h : k2 ≠ k) :
    (l.map fun p => if p.1 == k then (p.1, v) else p).find? (fun p => p.1 == k2)
      = l.find? (fun p => p.1 == k2) := by
  induction l with
  | nil => rfl
  | cons a l ih =>
    by_cases ha : a.1 = k2
    · have hak : a.1 ≠ k := by rw [ha]; exact h
      rw [List.map_cons, if_neg (by simp [hak]),
        List.find?_cons_of_pos _ (by simp [ha]),
        List.find?_cons_of_pos _ (by simp [ha])]
    · by_cases hak : a.1 = k
      · rw [List.map_cons, if_pos (by simp [hak]),
          List.find?_cons_of_neg _ (by simp [ha]),
          List.find?_cons_of_neg _ (by simp [ha])]
        exact ih
      · rw [List.map_cons, if_neg (by simp [hak]),
          List.find?_cons_of_neg _ (by simp [ha]),
          List.find?_cons_of_neg _ (by simp [ha])]
        exact ih

theorem getAttribute_setAttribute_self (k v : String) (e : Element) :
    getAttribute k (setAttribute k v e) = v := by
  unfold getAttribute setAttribute
  by_cases h : e.attributes.any (fun p => p.1 == k) = true
  · rw [if_pos h]
    simp only [Element.attributes_withAttributes]
    rw [find?_key_map_set]
    have hs : (e.attributes.find? fun p => p.1 == k).isSome := by
      rw [List.find?_isSome]
      exact List.any_eq_true.mp h
    cases hf : e.attributes.find? fun p => p.1 == k with
    | none => rw [hf] at hs; simp at hs
    | some q => rfl
  · rw [if_neg h]
    simp only [Element.attributes_withAttributes]
    rw [List.find?_append]
    have hnone : e.attributes.find? (fun p => p.1 == k) = none := by
      rw [List.find?_eq_none]
      intro x hx
      have := List.any_eq_false.mp (Bool.eq_false_iff.mpr h) x hx
      simpa using this
    rw [hnone]
    simp [List.find?]

theorem getAttribute_setAttribute_other (k v k2 : String) (e : Element)
    (h : k2 ≠ k) :
    getAttribute k2 (setAttribute k v e) = getAttribute k2 e := by
  unfold getAttribute setAttribute
  by_cases hany : e.attributes.any (fun p => p.1 == k) = true
  · rw [if_pos hany]
    simp only [Element.attributes_withAttributes]
    rw [find?_key_map_other _ _ _ _ h]
  · rw [if_neg hany]
    simp only [Element.attributes_withAttributes]
    rw [List.find?_append]
    have hlast : [(k, v)].find? (fun p => p.1 == k2) = none := by
      have hkk : (k == k2) = false := by
        rw [beq_eq_false_iff_ne]
        exact fun he => h he.symm
      simp [List.find?, hkk]
    rw [hlast]
    cases e.attributes.find? fun p => p.1 == k2 <;> rfl

theorem setAttribute_frame (k v : String) (e : Element) :
    (setAttribute k v e).name = e.name ∧
      (setAttribute k v e).category = e.category ∧
      (setAttribute k v e).children = e.children := by
  unfold setAttribute
  by_cases h : e.attributes.any (fun p => p.1 == k) = true
  · rw [if_pos h]; simp
  · rw [if_neg h]; simp

theorem not_name_mem_of_any_eq_false (l : List Element) (n : String)
    (h : l.any (fun c => c.name == n) = false) :
    ∀ x ∈ l, x.name ≠ n := by
  intro x hx
  have := List.any_eq_false.mp h x hx
  simpa using this

/-! ### Claim theorems -/

/-- C1: for geom strings neither of which is the universal wildcard,
`geomStringsMatch` returns true exactly when the token lists obtained by
splitting the two strings on commas share at least one common token. -/
theorem geomStringsMatch_iff_common_token (g1 g2 : String)
    (h1 : g1 ≠ UNIVERSAL_GEOM_NAME) (h2 : g2 ≠ UNIVERSAL_GEOM_NAME) :
    geomStringsMatch g1 g2 = true ↔
      ∃ t, t ∈ splitGeomString g1 ∧ t ∈ splitGeomString g2 := by
  unfold geomStringsMatch
  simp [h1, h2, List.any_eq_true, List.contains, List.elem_iff]

/-- Witness for C1 at the spec's example inputs. -/
theorem geomStringsMatch_iff_common_token_witness :
    ("/a,/b" ≠ UNIVERSAL_GEOM_NAME) ∧ ("/b,/c" ≠ UNIVERSAL_GEOM_NAME) ∧
      (geomStringsMatch "/a,/b" "/b,/c" = true ↔
        ∃ t, t ∈ splitGeomString "/a,/b" ∧ t ∈ splitGeomString "/b,/c") :=
  ⟨by decide, by decide,
    geomStringsMatch_iff_common_token "/a,/b" "/b,/c" (by decide) (by decide)⟩

/-- C2: the universal wildcard on either side matches every geom string,
including the empty string. -/
theorem geomStringsMatch_universal (s : String) :
    geomStringsMatch UNIVERSAL_GEOM_NAME s = true ∧
      geomStringsMatch s UNIVERSAL_GEOM_NAME = true := by
  constructor <;> · unfold geomStringsMatch; simp

/-- C3: an empty geom string matches nothing except the universal wildcard;
in particular two empty strings do not match. -/
theorem geomStringsMatch_empty (s : String) (h : s ≠ UNIVERSAL_GEOM_NAME) :
    geomStringsMatch "" s = false ∧ geomStringsMatch s "" = false := by
  have he : ("" : String) ≠ UNIVERSAL_GEOM_NAME := by decide
  have hsplit : splitGeomString "" = [] := rfl
  unfold geomStringsMatch
  constructor
  · simp [he, h, hsplit]
  · simp [he, h, hsplit]

/-- Witness for C3 at the pair of empty strings, the spec's own example. -/
theorem geomStringsMatch_empty_witness :
    (("" : String) ≠ UNIVERSAL_GEOM_NAME) ∧
      (geomStringsMatch "" "" = false ∧ geomStringsMatch "" "" = false) :=
  ⟨by decide, geomStringsMatch_empty "" (by decide)⟩

/-- C5: a typed add with an explicit non-empty name already used by any
existing direct child, whatever that child's variant, fails with the
`DuplicateName` condition for every requested variant; no renaming or
overwriting takes place since the erroneous call returns no new state. -/
theorem addChild_duplicate_name (e : Element) (n : String) (hn : n ≠ "")
    (hused : ∃ c ∈ e.children, c.name = n) :
    addGeomAttr n e = Except.error TreeError.duplicateName ∧
      addCollectionAdd n e = Except.error TreeError.duplicateName ∧
      ∀ t, addChild t n e = Except.error TreeError.duplicateName := by
  have hany : e.children.any (fun c => c.name == n) = true := by
    rw [List.any_eq_true]
    obtain ⟨c, hc, hcn⟩ := hused
    exact ⟨c, hc, by simp [hcn]⟩
  have h : ∀ t, addChild t n e = Except.error TreeError.duplicateName := by
    intro t
    unfold addChild
    rw [if_neg hn, if_pos hany]
  exact ⟨h _, h _, h⟩

/-- Witness for C5: adding a GeomAttr named `foo` to a parent whose existing
child `foo` is a CollectionRemove fails with DuplicateName. -/
theorem addChild_duplicate_name_witness :
    addGeomAttr "foo" collDup = Except.error TreeError.duplicateName :=
  (addChild_duplicate_name collDup "foo" (by decide) (by decide)).1

/-- C6: the typed remove is defensive: when no child of the requested name
and variant exists it returns the parent unchanged (hence every child is
unchanged and no error is raised), and when such a child exists it removes
exactly that child, whose entire subtree leaves the tree with it. -/
theorem removeChildOfType_defensive (e : Element) (t : Variant) (n : String)
    (hnd : (childNames e).Nodup) :
    (getChildOfType t n e = none → removeChildOfType t n e = e) ∧
      ∀ c, getChildOfType t n e = some c →
        ∃ l1 l2, e.children = l1 ++ c :: l2 ∧ (∀ x ∈ l1 ++ l2, x.name ≠ n) ∧
          removeChildOfType t n e = e.withChildren (l1 ++ l2) := by
  constructor
  · intro h
    unfold removeChildOfType
    rw [h]
  · intro c h
    obtain ⟨hg, hv⟩ := getChildOfType_eq_some t n e c h
    unfold getChild at hg
    obtain ⟨hcn, l1, l2, hdc, hl1⟩ := find?_name_decomp _ _ _ hg
    have hnd2 : ((l1 ++ c :: l2).map Element.name).Nodup := by
      unfold childNames at hnd
      rw [hdc] at hnd
      exact hnd
    have hl2 : ∀ x ∈ l2, x.name ≠ n := fun x hx =>
      hcn ▸ (nodup_decomp_names l1 c l2 hnd2).2 x hx
    have hsides : ∀ x ∈ l1 ++ l2, x.name ≠ n := by
      intro x hx
      rcases List.mem_append.mp hx with hx1 | hx2
      · exact hl1 x hx1
      · exact hl2 x hx2
    refine ⟨l1, l2, hdc, hsides, ?_⟩
    unfold removeChildOfType
    rw [h]
    unfold removeChild
    rw [hdc, List.filter_append, List.filter_cons, if_neg (by simp [hcn]),
      filter_name_ne_of_all l1 n hl1, filter_name_ne_of_all l2 n hl2]

/-- Witness for C6: removing a GeomAttr named `r1` from a Collection whose
only child `r1` is a CollectionAdd leaves the element unchanged. -/
theorem removeChildOfType_defensive_witness :
    removeChildOfType Variant.geomAttr "r1" collState = collState :=
  (removeChildOfType_defensive collState Variant.geomAttr "r1" (by decide)).1 rfl

/-- C7: the typed enumerations return exactly the children of the requested
variant, in insertion order, as the filter of the ordered child sequence;
being pure functions they mutate neither the parent nor any child. -/
theorem getChildrenOfType_eq_filter (e : Element) :
    getCollectionAdds e
        = e.children.filter (fun c => c.variant == Variant.collectionAdd) ∧
      getGeomAttrs e
        = e.children.filter (fun c => c.variant == Variant.geomAttr) ∧
      ∀ t, getChildrenOfType t e = e.children.filter (fun c => c.variant == t) :=
  ⟨childrenOfTypeAux_eq_filter _ _, childrenOfTypeAux_eq_filter _ _,
    fun t => childrenOfTypeAux_eq_filter t e.children⟩

/-- C10: `setGeom` and `setCollection` write disjoint attributes: each makes
its own accessor return the written value, leaves the other accessor's value
unchanged, and modifies neither the element's name nor its category nor its
children. -/
theorem setGeom_setCollection_frame (e : Element) (g c : String) :
    getGeom (setGeom g e) = g ∧
      getCollection (setGeom g e) = getCollection e ∧
      getCollection (setCollection c e) = c ∧
      getGeom (setCollection c e) = getGeom e ∧
      (setGeom g e).name = e.name ∧
      (setGeom g e).category = e.category ∧
      (setGeom g e).children = e.children ∧
      (setCollection c e).name = e.name ∧
      (setCollection c e).category = e.category ∧
      (setCollection c e).children = e.children := by
  have hne : COLLECTION_ATTRIBUTE ≠ GEOM_ATTRIBUTE := by decide
  have hne2 : GEOM_ATTRIBUTE ≠ COLLECTION_ATTRIBUTE := by decide
  have f1 := setAttribute_frame GEOM_ATTRIBUTE g e
  have f2 := setAttribute_frame COLLECTION_ATTRIBUTE c e
  exact ⟨getAttribute_setAttribute_self _ _ _,
    getAttribute_setAttribute_other _ _ _ _ hne,
    getAttribute_setAttribute_self _ _ _,
    getAttribute_setAttribute_other _ _ _ _ hne2,
    f1.1, f1.2.1, f1.2.2, f2.1, f2.2.1, f2.2.2⟩

/-- C8: a successful typed add, whether the name was explicit or empty and
hence synthesized, keeps the child names of the parent pairwise distinct;
an empty-name call synthesizes a name distinct from every current child
name, and the uniqueness invariant survives a subsequent removal. -/
theorem addChild_names_unique (e e2 c : Element) (t : Variant) (n : String)
    (hnd : (childNames e).Nodup)
    (h : addChild t n e = Except.ok (e2, c)) :
    (childNames e2).Nodup ∧ (n = "" → c.name ∉ childNames e) ∧
      ∀ t2 n2, (childNames (removeChildOfType t2 n2 e2)).Nodup := by
  unfold addChild at h
  by_cases hn : n = ""
  · rw [if_pos hn] at h
    have h2 := Except.ok.inj h
    injection h2 with he hc
    subst he
    subst hc
    have hfresh := freshChildName_not_mem t e
    have hnames :
        childNames (e.withChildren
            (e.children ++ [newElement t (freshChildName t e)]))
          = childNames e ++ [freshChildName t e] := by
      unfold childNames
      simp [newElement]
    refine ⟨?_, ?_, ?_⟩
    · rw [hnames]
      exact nodup_append_singleton _ _ hnd hfresh
    · intro _
      simpa [newElement] using hfresh
    · intro t2 n2
      apply nodup_childNames_remove
      rw [hnames]
      exact nodup_append_singleton _ _ hnd hfresh
  · rw [if_neg hn] at h
    cases hany : e.children.any (fun x => x.name == n) with
    | true => rw [if_pos hany] at h; simp at h
    | false =>
      rw [if_neg (by simp [hany])] at h
      have h2 := Except.ok.inj h
      injection h2 with he hc
      subst he
      subst hc
      have hnot : n ∉ childNames e := by
        intro hmem
        unfold childNames at hmem
        obtain ⟨x, hx, hxn⟩ := List.mem_map.mp hmem
        exact not_name_mem_of_any_eq_false _ _ hany x hx hxn
      have hnames :
          childNames (e.withChildren (e.children ++ [newElement t n]))
            = childNames e ++ [n] := by
        unfold childNames
        simp [newElement]
      refine ⟨?_, ?_, ?_⟩
      · rw [hnames]
        exact nodup_append_singleton _ _ hnd hnot
      · intro hEmpty
        exact absurd hEmpty hn
      · intro t2 n2
        apply nodup_childNames_remove
        rw [hnames]
        exact nodup_append_singleton _ _ hnd hnot

/-- Witness for C8: the auto-named add on a GeomInfo whose child already
uses `geomattr0` synthesizes the distinct name `geomattr1` and keeps the
child names distinct, also after a removal. -/
theorem addChild_names_unique_witness :
    (childNames giAutoAfter).Nodup ∧ giAutoNew.name ∉ childNames giAuto ∧
      (childNames (removeChildOfType Variant.geomAttr "geomattr0"
        giAutoAfter)).Nodup := by
  have h := addChild_names_unique giAuto giAutoAfter giAutoNew
    Variant.geomAttr "" (by decide) rfl
  exact ⟨h.1, h.2.1 rfl, h.2.2 Variant.geomAttr "geomattr0"⟩

/-- C9: on a parent whose child named `n` is not a GeomAttr, the
type-filtered lookup returns nothing, so `setGeomAttrValue` attempts to add
a new GeomAttr under the already-used name `n` and fails with the
`DuplicateName` condition, storing no value. -/
theorem setGeomAttrValue_variant_conflict (e : Element) (n : String)
    (c : Element) (v : MxValue) (tp : String) (hn : n ≠ "")
    (hfind : getChild n e = some c) (hv : c.variant ≠ Variant.geomAttr) :
    getChildOfType Variant.geomAttr n e = none ∧
      setGeomAttrValue n v tp e = Except.error TreeError.duplicateName := by
  have hnone : getChildOfType Variant.geomAttr n e = none := by
    unfold getChildOfType
    rw [hfind]
    change (if c.variant = Variant.geomAttr then some c else none) = none
    rw [if_neg hv]
  refine ⟨hnone, ?_⟩
  unfold setGeomAttrValue
  rw [hnone]
  have hmem : ∃ x ∈ e.children, x.name = n := by
    unfold getChild at hfind
    obtain ⟨hcn, l1, l2, hdc, _⟩ := find?_name_decomp _ _ _ hfind
    exact ⟨c, by
      rw [hdc]
      exact List.mem_append.mpr (Or.inr (List.mem_cons_self _ _)), hcn⟩
  have hany : e.children.any (fun x => x.name == n) = true := by
    rw [List.any_eq_true]
    obtain ⟨x, hx, hxn⟩ := hmem
    exact ⟨x, hx, by simp [hxn]⟩
  unfold addGeomAttr addChild
  rw [if_neg hn, if_pos hany]
  rfl

/-- Witness for C9: on a GeomInfo whose child `x1` is a CollectionAdd, the
lookup filtered to GeomAttr returns nothing and setting a geomattr value
under `x1` fails with DuplicateName. -/
theorem setGeomAttrValue_variant_conflict_witness :
    getChildOfType Variant.geomAttr "x1" conflictState = none ∧
      setGeomAttrValue "x1" (MxValue.vString "v") "" conflictState
        = Except.error TreeError.duplicateName :=
  setGeomAttrValue_variant_conflict conflictState "x1"
    (Element.mk Variant.collectionAdd "collectionadd" "x1" [] none [])
    (MxValue.vString "v") "" (by decide) rfl (by decide)

/-- C4 counterexample: with the empty name, `setGeomAttrValue` does not
update one child twice but creates a fresh auto-named GeomAttr on each call:
after one call `getGeomAttrs` has length 1, after the second it has
length 2. -/
theorem setGeomAttrValue_empty_name_duplicates :
    ((setGeomAttrValue "" (MxValue.vString "x") "" giEmpty).map
        fun e => (getGeomAttrs e).length) = Except.ok 1 ∧
      ((setGeomAttrValue "" (MxValue.vString "x") "" giEmpty).bind
        fun e =>
          (setGeomAttrValue "" (MxValue.vString "y") "" e).map
            fun e2 => (getGeomAttrs e2).length) = Except.ok 2 := by
  constructor
  · rfl
  · rfl

/-- C4 (amended to non-empty names): once a `setGeomAttrValue` call with a
non-empty name succeeds, the parent has exactly one GeomAttr child of that
name; a second call with the same name succeeds, updates that same child in
place, keeps the count at one, and leaves the length of `getGeomAttrs`
unchanged. -/
theorem setGeomAttrValue_idempotent (e e1 : Element) (n : String)
    (v1 v2 : MxValue) (t1 t2 : String)
    (hnd : (childNames e).Nodup) (hn : n ≠ "")
    (h1 : setGeomAttrValue n v1 t1 e = Except.ok e1) :
    countChildrenOfTypeNamed Variant.geomAttr n e1 = 1 ∧
      setGeomAttrValue n v2 t2 e1
          = Except.ok (updateChildNamed n (setValue v2 t2) e1) ∧
      countChildrenOfTypeNamed Variant.geomAttr n
          (updateChildNamed n (setValue v2 t2) e1) = 1 ∧
      (getGeomAttrs (updateChildNamed n (setValue v2 t2) e1)).length
        = (getGeomAttrs e1).length := by
  have hshape : ∃ m1 cA m2, e1.children = m1 ++ cA :: m2 ∧ cA.name = n ∧
      cA.variant = Variant.geomAttr ∧ (∀ x ∈ m1, x.name ≠ n) ∧
      ∀ x ∈ m2, x.name ≠ n := by
    unfold setGeomAttrValue at h1
    cases hg : getChildOfType Variant.geomAttr n e with
    | some c0 =>
      rw [hg] at h1
      have he1 := Except.ok.inj h1
      obtain ⟨hgc, hvc⟩ := getChildOfType_eq_some _ _ _ _ hg
      unfold getChild at hgc
      obtain ⟨hcn, l1, l2, hdc, hl1⟩ := find?_name_decomp _ _ _ hgc
      have hnd2 : ((l1 ++ c0 :: l2).map Element.name).Nodup := by
        unfold childNames at hnd
        rw [hdc] at hnd
        exact hnd
      have hl2 : ∀ x ∈ l2, x.name ≠ n := fun x hx =>
        hcn ▸ (nodup_decomp_names l1 c0 l2 hnd2).2 x hx
      refine ⟨l1, setValue v1 t1 c0, l2, ?_, ?_, ?_, hl1, hl2⟩
      · rw [← he1]
        exact updateChildNamed_decomp e n v1 t1 l1 c0 l2 hdc hcn hl1 hl2
      · rw [setValue_name]
        exact hcn
      · rw [setValue_variant]
        exact hvc
    | none =>
      rw [hg] at h1
      cases ha : addGeomAttr n e with
      | error err =>
        rw [ha] at h1
        simp [Except.map] at h1
      | ok pc =>
        rw [ha] at h1
        simp only [Except.map] at h1
        unfold addGeomAttr addChild at ha
        rw [if_neg hn] at ha
        cases hany : e.children.any (fun x => x.name == n) with
        | true =>
          rw [if_pos hany] at ha
          simp at ha
        | false =>
          rw [if_neg (by simp [hany])] at ha
          have hpc := Except.ok.inj ha
          subst hpc
          have he1 := Except.ok.inj h1
          have hnm : ∀ x ∈ e.children, x.name ≠ n :=
            not_name_mem_of_any_eq_false _ _ hany
          refine ⟨e.children, setValue v1 t1 (newElement Variant.geomAttr n),
            [], ?_, ?_, ?_, hnm, by simp⟩
          · rw [← he1]
            exact updateChildNamed_decomp
              (e.withChildren (e.children ++ [newElement Variant.geomAttr n]))
              n v1 t1 e.children (newElement Variant.geomAttr n) []
              (by simp) (by simp [newElement]) hnm (by simp)
          · rw [setValue_name]
            simp [newElement]
          · rw [setValue_variant]
            simp [newElement]
  obtain ⟨m1, cA, m2, hdec, hcn, hcv, hm1, hm2⟩ := hshape
  have hcount1 : countChildrenOfTypeNamed Variant.geomAttr n e1 = 1 := by
    unfold countChildrenOfTypeNamed
    rw [hdec, countP_typeNamed_decomp _ _ _ _ _ hm1 hm2 hcn, if_pos hcv]
  have hg2 : getChildOfType Variant.geomAttr n e1 = some cA := by
    unfold getChildOfType getChild
    rw [hdec, find?_name_of_decomp _ _ _ _ hm1 hcn]
    change (if cA.variant = Variant.geomAttr then some cA else none) = some cA
    rw [if_pos hcv]
  refine ⟨hcount1, ?_, ?_, ?_⟩
  · unfold setGeomAttrValue
    rw [hg2]
  · unfold countChildrenOfTypeNamed
    rw [updateChildNamed_decomp e1 n v2 t2 m1 cA m2 hdec hcn hm1 hm2,
      countP_typeNamed_decomp _ _ _ _ _ hm1 hm2
        (by rw [setValue_name]; exact hcn),
      if_pos (by rw [setValue_variant]; exact hcv)]
  · unfold getGeomAttrs getChildrenOfType
    rw [childrenOfTypeAux_eq_filter, childrenOfTypeAux_eq_filter,
      ← List.countP_eq_length_filter, ← List.countP_eq_length_filter]
    simp only [updateChildNamed, Element.children_withChildren]
    exact countP_map_update _ _ _ _ _ (fun c => by rw [setValue_variant])

/-- Witness for C4's amended theorem at a GeomInfo and the name `ga1`. -/
theorem setGeomAttrValue_idempotent_witness :
    (childNames giEmpty).Nodup ∧ ("ga1" ≠ "") ∧
      (countChildrenOfTypeNamed Variant.geomAttr "ga1" gaState1 = 1 ∧
        setGeomAttrValue "ga1" (MxValue.vString "y") "" gaState1
            = Except.ok (updateChildNamed "ga1"
                (setValue (MxValue.vString "y") "") gaState1) ∧
        countChildrenOfTypeNamed Variant.geomAttr "ga1"
            (updateChildNamed "ga1"
              (setValue (MxValue.vString "y") "") gaState1) = 1 ∧
        (getGeomAttrs (updateChildNamed "ga1"
            (setValue (MxValue.vString "y") "") gaState1)).length
          = (getGeomAttrs gaState1).length) :=
  ⟨by decide, by decide,
    setGeomAttrValue_idempotent giEmpty gaState1 "ga1" (MxValue.vString "x")
      (MxValue.vString "y") "" "" (by decide) (by decide) rfl⟩

end MaterialX
